import Mathlib

/-!
Verification of the memfs storage engine and file-handle semantics
(`helpers/memfs/memfs.go`) and the platform metadata enricher
(`file/file_unix.go`).

File contents (the byte buffers) are modelled as `List Char`, one
character per stored byte; a symlink's target string round-trips through
`String.mk` / `String.data`.  Go `int`/`int64` values are modelled as
`Int` (offsets, positions) or `Nat` (lengths, flag words, mode words);
`os.FileMode` and the open-flag word are `Nat` bit vectors with the
Linux bit values.  `time.Now()` is modelled by threading an explicit
`now : Nat` argument through every operation that stamps a time.
Operations that in Go recurse through symlink chains without bound
(`OpenFile`, `Stat`, `ReadDir`, hence `Symlink`) take an explicit fuel
argument and answer `GoErr.outOfFuel` when it runs out.
-/

namespace Memfs

/-! ## Open flags and file modes (Linux bit values of the `os` package) -/

def oRDONLY : Nat := 0
def oWRONLY : Nat := 1
def oRDWR : Nat := 2
def oCREATE : Nat := 64
def oEXCL : Nat := 128
def oTRUNC : Nat := 512
def oAPPEND : Nat := 1024

/-- ModeDir is the directory bit of `os.FileMode` (bit 31). -/
def ModeDir : Nat := 2 ^ 31

/-- ModeSymlink is the symlink bit of `os.FileMode` (bit 27). -/
def ModeSymlink : Nat := 2 ^ 27

def isCreate (flag : Nat) : Bool := flag &&& oCREATE != 0

def isExclusive (flag : Nat) : Bool := flag &&& oEXCL != 0

def isAppend (flag : Nat) : Bool := flag &&& oAPPEND != 0

def isTruncate (flag : Nat) : Bool := flag &&& oTRUNC != 0

def isReadAndWrite (flag : Nat) : Bool := flag &&& oRDWR != 0

/-- isReadOnly tests the whole flag word for equality with `O_RDONLY` (= 0),
exactly as the source does (`flag == os.O_RDONLY`), not a bit test. -/
def isReadOnly (flag : Nat) : Bool := flag == oRDONLY

def isWriteOnly (flag : Nat) : Bool := flag &&& oWRONLY != 0

def isSymlink (m : Nat) : Bool := m &&& ModeSymlink != 0

/-- isDirMode is `os.FileMode.IsDir`: the `ModeDir` bit is set. -/
def isDirMode (m : Nat) : Bool := m &&& ModeDir != 0

/-! ## Path arithmetic (`path/filepath` on a slash-separated Unix path) -/

/-- isAbs is the source's `isAbs`: on Linux both disjuncts reduce to the
path starting with the separator `/`. -/
def isAbs (path : String) : Bool :=
  match path.data with
  | '/' :: _ => true
  | _ => false

/-- splitSlashAux splits a character list on `/`, accumulating the
current component reversed. -/
def splitSlashAux : List Char → List Char → List String
  | acc, [] => [String.mk acc.reverse]
  | acc, c :: rest =>
    if c = '/' then String.mk acc.reverse :: splitSlashAux [] rest
    else splitSlashAux (c :: acc) rest

/-- splitSlash is `strings.Split(path, "/")`. -/
def splitSlash (path : String) : List String := splitSlashAux [] path.data

/-- joinComps is `strings.Join(comps, "/")`. -/
def joinComps : List String → String
  | [] => ""
  | [c] => c
  | c :: rest => c ++ "/" ++ joinComps rest

/-- cleanCore processes path components as `filepath.Clean` does: drops
empty and `.` components, resolves `..` against the accumulator (for a
rooted path a `..` at the root is dropped; for a relative path leading
`..` components are kept). -/
def cleanCore (rooted : Bool) : List String → List String → List String
  | acc, [] => acc.reverse
  | acc, c :: rest =>
    if c = "" || c = "." then cleanCore rooted acc rest
    else if c = ".." then
      match acc with
      | [] => if rooted then cleanCore rooted [] rest else cleanCore rooted [".."] rest
      | a :: as =>
        if a = ".." then cleanCore rooted (".." :: a :: as) rest
        else cleanCore rooted as rest
    else cleanCore rooted (c :: acc) rest

/-- clean is `filepath.Clean` for slash-separated paths. -/
def clean (path : String) : String :=
  let rooted := isAbs path
  let body := joinComps (cleanCore rooted [] (splitSlash path))
  if rooted then "/" ++ body
  else if body = "" then "." else body

/-- dirPath is `filepath.Dir`: everything up to the final separator,
cleaned; a path without a separator has directory `.`. -/
def dirPath (path : String) : String :=
  let comps := splitSlash path
  if comps.length ≤ 1 then "."
  else
    let rooted := isAbs path
    let body := joinComps (cleanCore rooted [] comps.dropLast)
    if rooted then "/" ++ body
    else if body = "" then "." else body

/-- basePath is `filepath.Base`: the last non-empty component; `/` for a
path of separators only, `.` for the empty path. -/
def basePath (path : String) : String :=
  match ((splitSlash path).filter (fun c => !(c == ""))).getLast? with
  | some c => c
  | none => if isAbs path then "/" else "."

/-- joinPath is the two-argument `filepath.Join`: empty elements are
skipped and the joined string is cleaned. -/
def joinPath (a b : String) : String :=
  if a = "" then (if b = "" then "" else clean b)
  else if b = "" then clean a
  else clean (a ++ "/" ++ b)

/-! ## Errors -/

/-- GoErr enumerates the error values the modelled code can return.
`outOfFuel` is the artefact of bounding the source's unbounded symlink
recursion; no theorem below treats it as a behaviour of the code. -/
inductive GoErr where
  | notExist
  | exist
  | closed
  | eof
  | readNotSupported
  | writeNotSupported
  | isDirectory (path : String)
  | pathENOENT (op : String) (path : String)
  | notSymlink (path : String)
  | negativeOffset
  | outOfFuel
deriving DecidableEq, Repr

/-! ## Content buffer -/

/-- Bytes of a content buffer, one `Char` per byte. -/
abbrev Bytes := List Char

/-- zeroByte is the zero byte a growing truncate or a write gap pads with. -/
def zeroByte : Char := Char.ofNat 0

/-- Modelled from the spec: `content.ReadAt` (the storage layer of this
repository is not under `src/`): copies the available bytes starting at
`off` into a destination of capacity `bufLen`; an offset at or past the
end yields zero bytes with the end-of-data signal, and a short read
(fewer than `bufLen` bytes available) also carries the end-of-data
signal; a negative offset is an error. -/
def contentReadAt (bytes : Bytes) (bufLen : Nat) (off : Int) : Bytes × Option GoErr :=
  if off < 0 then ([], some .negativeOffset)
  else if bytes.length ≤ off.toNat then ([], some .eof)
  else
    let btr := (bytes.drop off.toNat).take bufLen
    (btr, if btr.length < bufLen then some .eof else none)

/-- Modelled from the spec: `content.WriteAt` (the storage layer of this
repository is not under `src/`): grows the buffer when
`off + p.length` exceeds its length, zero-filling the gap between the
old end and `off`, overwrites `[off, off + p.length)` with `p`, always
succeeds and returns the number of bytes written; a negative offset is
an error. -/
def contentWriteAt (bytes : Bytes) (p : Bytes) (off : Int) : Bytes × Nat × Option GoErr :=
  if off < 0 then (bytes, 0, some .negativeOffset)
  else
    let o := off.toNat
    let padded := bytes ++ List.replicate (o - bytes.length) zeroByte
    (padded.take o ++ p ++ padded.drop (o + p.length), p.length, none)

/-! ## Handle (the source's `file` struct viewed as an open handle) -/

structure Handle where
  name : String
  content : Bytes
  position : Int
  flag : Nat
  mode : Nat
  mtime : Nat
  isClosed : Bool
deriving DecidableEq, Repr

inductive Whence where
  | seekStart
  | seekCurrent
  | seekEnd
deriving DecidableEq, Repr

/-- ReadAt of `file`: rejects a closed handle, then rejects a flag word
that grants neither read-write nor exact read-only, then delegates to
the content buffer.  The handle itself is not modified. -/
def Handle.ReadAt (f : Handle) (bufLen : Nat) (off : Int) : Bytes × Option GoErr :=
  if f.isClosed then ([], some .closed)
  else if !(isReadAndWrite f.flag || isReadOnly f.flag) then ([], some .readNotSupported)
  else contentReadAt f.content bufLen off

/-- Read of `file`: `ReadAt` at the current position, position advanced
by the bytes produced, and an end-of-data signal accompanied by at least
one byte converted to a nil error. -/
def Handle.Read (f : Handle) (bufLen : Nat) : Handle × Bytes × Option GoErr :=
  let r := f.ReadAt bufLen f.position
  ({ f with position := f.position + r.1.length },
   r.1,
   if r.2 = some .eof ∧ r.1.length ≠ 0 then none else r.2)

/-- WriteAt of `file`: rejects a closed handle, then a flag word that
grants neither read-write nor write-only; otherwise writes through the
content buffer, sets the position to `off + n` and stamps the mtime. -/
def Handle.WriteAt (f : Handle) (p : Bytes) (off : Int) (now : Nat) :
    Handle × Nat × Option GoErr :=
  if f.isClosed then (f, 0, some .closed)
  else if !(isReadAndWrite f.flag || isWriteOnly f.flag) then (f, 0, some .writeNotSupported)
  else
    let r := contentWriteAt f.content p off
    ({ f with content := r.1, position := off + r.2.1, mtime := now }, r.2.1, r.2.2)

/-- Write of `file`: `WriteAt` at the current position. -/
def Handle.Write (f : Handle) (p : Bytes) (now : Nat) : Handle × Nat × Option GoErr :=
  f.WriteAt p f.position now

/-- Seek of `file`: rejects a closed handle; otherwise sets the position
relative to the start, the current position or the end of the buffer,
with no bounds clamping, and returns the new position. -/
def Handle.Seek (f : Handle) (offset : Int) (w : Whence) : Handle × Int × Option GoErr :=
  if f.isClosed then (f, 0, some .closed)
  else
    let p : Int :=
      match w with
      | .seekCurrent => f.position + offset
      | .seekStart => offset
      | .seekEnd => (f.content.length : Int) + offset
    ({ f with position := p }, p, none)

/-- Close of `file`: fails on an already-closed handle, otherwise marks
the handle closed. -/
def Handle.Close (f : Handle) : Handle × Option GoErr :=
  if f.isClosed then (f, some .closed)
  else ({ f with isClosed := true }, none)

/-- truncBytes is the buffer arithmetic of `file.Truncate`: a smaller
size keeps the prefix, a larger size appends zero bytes, an equal size
changes nothing. -/
def truncBytes (b : Bytes) (size : Nat) : Bytes :=
  if size < b.length then b.take size
  else if 0 < size - b.length then b ++ List.replicate (size - b.length) zeroByte
  else b

/-- Truncate of `file`: resizes the buffer and stamps the mtime.
Mirroring the source, there is no closed-handle check and no flag
check. -/
def Handle.Truncate (f : Handle) (size : Nat) (now : Nat) : Handle × Option GoErr :=
  ({ f with content := truncBytes f.content size, mtime := now }, none)

/-! ## Storage tree -/

/-- Entry is a stored node of the tree: the `file` struct as it sits in
the storage map (name, shared content buffer, mode word, mtime). -/
structure Entry where
  name : String
  content : Bytes
  mode : Nat
  mtime : Nat
deriving DecidableEq, Repr

/-- Memory is the path-indexed registry: an association list from
normalized absolute path to Entry (keys unique, first match wins). -/
abbrev Memory := List (String × Entry)

/-- Modelled from the spec: `storage.Get` (the storage layer of this
repository is not under `src/`): exact lookup of the cleaned path in the
path-indexed map; an absent path is a negative result, not a fault. -/
def sget (m : Memory) (path : String) : Option Entry :=
  (m.find? (fun kv => kv.1 == clean path)).map (fun kv => kv.2)

/-- mkDirEntry is an implicitly created ancestor directory Entry. -/
def mkDirEntry (path : String) (perm now : Nat) : Entry :=
  ⟨basePath path, [], perm ||| ModeDir, now⟩

/-- Modelled from the spec: the ancestor auto-creation of `storage.New`
(the storage layer of this repository is not under `src/`): walks up
from the new key, appending a directory Entry for every missing
ancestor, stopping at an existing one or at the root. -/
def addParents : Nat → Memory → String → Nat → Nat → Memory
  | 0, m, _, _, _ => m
  | fuel + 1, m, path, perm, now =>
    let d := dirPath path
    if d = path then m
    else
      match sget m d with
      | some _ => m
      | none => addParents fuel (m ++ [(clean d, mkDirEntry d perm now)]) d perm now

/-- Modelled from the spec: the creation half of `storage.New` (the
storage layer of this repository is not under `src/`): keys the Entry
under the cleaned path, replacing any previous Entry there, and
auto-creates missing ancestor directories. -/
def storeEntry (m : Memory) (path : String) (e : Entry) (perm now : Nat) : Memory :=
  let p := clean path
  addParents (p.data.length + 1) ((p, e) :: m.filter (fun kv => !(kv.1 == p))) p perm now

/-- Modelled from the spec: `storage.Children` (the storage layer of
this repository is not under `src/`): every Entry whose key's immediate
parent directory equals the cleaned path. -/
def Children (m : Memory) (path : String) : List Entry :=
  (m.filter (fun kv => dirPath kv.1 == clean path)).map (fun kv => kv.2)

/-! ## Metadata -/

/-- FileInfo is the portable stat result `fileInfo`. -/
structure FileInfo where
  name : String
  size : Nat
  mode : Nat
  mtime : Nat
deriving DecidableEq, Repr

/-- entryStat is `file.Stat` on a stored Entry: name, buffer length as
size, mode and mtime. -/
def entryStat (e : Entry) : FileInfo :=
  ⟨e.name, e.content.length, e.mode, e.mtime⟩

/-- nameLe compares two names byte-lexicographically, as Go's `<` on
strings does in the `ByName` sort order. -/
def nameLe : List Char → List Char → Bool
  | [], _ => true
  | _ :: _, [] => false
  | a :: as, b :: bs =>
    if a.toNat < b.toNat then true
    else if b.toNat < a.toNat then false
    else nameLe as bs

/-- insertByName inserts into a name-sorted list of stat results. -/
def insertByName (x : FileInfo) : List FileInfo → List FileInfo
  | [] => [x]
  | y :: ys =>
    if nameLe x.name.data y.name.data then x :: y :: ys
    else y :: insertByName x ys

/-- sortByName sorts stat results in ascending name order, the
postcondition of `sort.Sort(ByName(entries))`. -/
def sortByName : List FileInfo → List FileInfo
  | [] => []
  | x :: xs => insertByName x (sortByName xs)

/-! ## Filesystem facade -/

/-- resolveLink of `Memory`: a non-symlink resolves to itself; a symlink
resolves to its stored target string, joined against the symlink's own
directory when the target is relative. -/
def resolveLink (fullpath : String) (f : Entry) : String × Bool :=
  if !(isSymlink f.mode) then (fullpath, false)
  else
    let target := String.mk f.content
    let target := if !(isAbs target) then joinPath (dirPath fullpath) target else target
    (target, true)

/-- duplicate is `file.Duplicate`: a fresh Handle onto the Entry's
buffer with the given name, perm (as its mode) and flags; `O_TRUNC`
empties the shared buffer, `O_APPEND` starts the position at its end.
The second component is the (possibly emptied) shared buffer. -/
def duplicate (e : Entry) (filename : String) (mode flag : Nat) (now : Nat) :
    Handle × Bytes :=
  let c := if isTruncate flag then [] else e.content
  let pos : Int := if isAppend flag then (c.length : Int) else 0
  (⟨filename, c, pos, flag, mode, now, false⟩, c)

/-- updateContent writes a shared buffer back into the storage Entry it
belongs to, making the sharing of one buffer explicit. -/
def updateContent (m : Memory) (path : String) (c : Bytes) : Memory :=
  m.map (fun kv => if kv.1 == clean path then (kv.1, { kv.2 with content := c }) else kv)

/-- OpenFile of `Memory`: an absent path without `O_CREATE` is
not-exist; an absent path with it creates the Entry (mode = perm) with
its ancestors; a present path with `O_EXCL` is already-exists; a present
symlink recurses on the resolved target; a directory cannot be opened;
otherwise a fresh Handle is duplicated, `O_TRUNC` emptying the shared
buffer in the store as well. -/
def OpenFile : Nat → Memory → String → Nat → Nat → Nat → Except GoErr (Handle × Memory)
  | 0, _, _, _, _, _ => .error .outOfFuel
  | fuel + 1, m, filename, flag, perm, now =>
    match sget m filename with
    | none =>
      if !(isCreate flag) then .error .notExist
      else
        let e : Entry := ⟨basePath (clean filename), [], perm, now⟩
        let m1 := storeEntry m filename e perm now
        if isDirMode e.mode then .error (.isDirectory filename)
        else
          let hc := duplicate e filename perm flag now
          .ok (hc.1, updateContent m1 filename hc.2)
    | some f =>
      if isExclusive flag then .error .exist
      else
        let r := resolveLink filename f
        if r.2 then OpenFile fuel m r.1 flag perm now
        else if isDirMode f.mode then .error (.isDirectory filename)
        else
          let hc := duplicate f filename perm flag now
          .ok (hc.1, updateContent m filename hc.2)

/-- Stat of `Memory`: looks the path up, follows a symlink by recursing
on the resolved target, and always rewrites the name of the returned
info to the base name of the originally queried path. -/
def Stat : Nat → Memory → String → Except GoErr FileInfo
  | 0, _, _ => .error .outOfFuel
  | fuel + 1, m, filename =>
    match sget m filename with
    | none => .error .notExist
    | some f =>
      let r := resolveLink filename f
      if r.2 then
        match Stat fuel m r.1 with
        | .error e => .error e
        | .ok fi => .ok { fi with name := basePath filename }
      else .ok { entryStat f with name := basePath filename }

/-- Lstat of `Memory`: the Entry's own stat, never following a symlink. -/
def Lstat (m : Memory) (filename : String) : Except GoErr FileInfo :=
  match sget m filename with
  | none => .error .notExist
  | some f => .ok (entryStat f)

/-- ReadDir of `Memory`: a symlink recurses on its resolved target, an
absent path is a not-exist path error, and otherwise the direct
children's stats are returned sorted by name — with no check that the
path holds a directory. -/
def ReadDir : Nat → Memory → String → Except GoErr (List FileInfo)
  | 0, _, _ => .error .outOfFuel
  | fuel + 1, m, path =>
    match sget m path with
    | none => .error (.pathENOENT "open" path)
    | some f =>
      let r := resolveLink path f
      if r.2 then ReadDir fuel m r.1
      else .ok (sortByName ((Children m path).map entryStat))

/-- Modelled from the spec: `util.WriteFile` as invoked by `Symlink`
(the helper is not under `src/`): writes the symlink Entry at the link
path, its content the literal target string, its mode `0777|ModeSymlink`. -/
def writeSymlinkFile (m : Memory) (link target : String) (now : Nat) : Memory :=
  storeEntry m link ⟨basePath (clean link), target.data, 511 ||| ModeSymlink, now⟩ 511 now

/-- Symlink of `Memory`: already-exists when the link path currently
Stats to anything; a Stat failure other than not-exist is passed
through; otherwise the symlink Entry is written. -/
def Symlink (fuel : Nat) (m : Memory) (target link : String) (now : Nat) :
    Except GoErr Memory :=
  match Stat fuel m link with
  | .ok _ => .error .exist
  | .error e =>
    if e = .notExist then .ok (writeSymlinkFile m link target now)
    else .error e

/-- Readlink of `Memory`: not-exist when absent, a not-a-symlink path
error on a non-symlink Entry, else the raw stored target string. -/
def Readlink (m : Memory) (link : String) : Except GoErr String :=
  match sget m link with
  | none => .error .notExist
  | some f =>
    if !(isSymlink f.mode) then .error (.notSymlink link)
    else .ok (String.mk f.content)

/-- ResolvesTo m p g n: starting at path `p`, following exactly `n`
symlink hops through the store `m` lands on the non-symlink Entry `g`. -/
inductive ResolvesTo (m : Memory) : String → Entry → Nat → Prop where
  | direct {p : String} {f : Entry} :
      sget m p = some f → isSymlink f.mode = false → ResolvesTo m p f 0
  | step {p : String} {f g : Entry} {n : Nat} :
      sget m p = some f → isSymlink f.mode = true →
      ResolvesTo m (resolveLink p f).1 g n → ResolvesTo m p g (n + 1)

/-! ## Platform metadata enricher (`file/file_unix.go`) -/

/-- StatT is the native `syscall.Stat_t` restricted to the fields the
enricher reads: link count and inode as unsigned 64-bit numbers, owner
ids as unsigned 32-bit numbers, the raw device number, and the access
and change timestamps as second/nanosecond pairs. -/
structure StatT where
  nlink : Nat
  uid : Nat
  gid : Nat
  rdev : Nat
  ino : Nat
  atimSec : Int
  atimNsec : Int
  ctimSec : Int
  ctimNsec : Int
deriving DecidableEq, Repr

/-- NfsFileInfo is the portable identity structure `file.FileInfo` that
the enricher populates; the two timestamps are kept as nanosecond
counts, the value `time.Unix(sec, nsec)` denotes. -/
structure NfsFileInfo where
  nlink : Nat
  uid : Nat
  gid : Nat
  major : Nat
  minor : Nat
  fileid : Nat
  atimeNanos : Int
  ctimeNanos : Int
deriving DecidableEq, Repr

/-- unixMajor is `unix.Major` on Linux: bits 8–19 and 44–63 of the raw
device number. -/
def unixMajor (dev : Nat) : Nat :=
  ((dev &&& 0x00000000000fff00) >>> 8) ||| ((dev &&& 0xfffff00000000000) >>> 32)

/-- unixMinor is `unix.Minor` on Linux: bits 0–7 and 20–43 of the raw
device number. -/
def unixMinor (dev : Nat) : Nat :=
  (dev &&& 0x00000000000000ff) ||| ((dev &&& 0x00000ffffff00000) >>> 12)

/-- getOSFileInfo of `file/file_unix.go`: absent native stat data yields
the absent result; otherwise every identity field is decoded from the
native structure, the 64-bit link count narrowed to 32 bits by the
`uint32` conversion.  The input is never mutated (the function is pure
by construction). -/
def getOSFileInfo (sys : Option StatT) : Option NfsFileInfo :=
  match sys with
  | none => none
  | some s =>
    some ⟨s.nlink % 2 ^ 32, s.uid, s.gid, unixMajor s.rdev, unixMinor s.rdev, s.ino,
      s.atimSec * 1000000000 + s.atimNsec, s.ctimSec * 1000000000 + s.ctimNsec⟩

/-- Decidable equality on `Except`, so that concrete runs of the
fallible operations can be checked by evaluation. -/
instance {ε α : Type} [DecidableEq ε] [DecidableEq α] : DecidableEq (Except ε α) := fun x y =>
  match x, y with
  | .ok a, .ok b =>
    if h : a = b then isTrue (by rw [h]) else isFalse (by intro he; cases he; exact h rfl)
  | .error a, .error b =>
    if h : a = b then isTrue (by rw [h]) else isFalse (by intro he; cases he; exact h rfl)
  | .ok _, .error _ => isFalse (by intro h; cases h)
  | .error _, .ok _ => isFalse (by intro h; cases h)

/-! ## Concrete data for witnesses and counterexamples -/

/-- sampleEntry is the five-byte file the sample store holds. -/
def sampleEntry : Entry := ⟨"f.txt", ['h', 'e', 'l', 'l', 'o'], 438, 2⟩

/-- sampleMemory is a small concrete store: two directories, a five-byte
file, and an absolute symlink to the file. -/
def sampleMemory : Memory :=
  [("/a", ⟨"a", [], 493 ||| ModeDir, 1⟩),
   ("/a/b", ⟨"b", [], 493 ||| ModeDir, 1⟩),
   ("/a/b/f.txt", sampleEntry),
   ("/link", ⟨"link", "/a/b/f.txt".data, 511 ||| ModeSymlink, 3⟩)]

/-- openRW is an open read-write handle over two bytes. -/
def openRW : Handle := ⟨"f", ['a', 'b'], 0, oRDWR, 438, 0, false⟩

/-- closedRW is the same handle already closed. -/
def closedRW : Handle := ⟨"f", ['a', 'b'], 0, oRDWR, 438, 0, true⟩

/-- readOnlyHandle carries the bare `O_RDONLY` flag word. -/
def readOnlyHandle : Handle := ⟨"f", ['a', 'b'], 0, oRDONLY, 438, 0, false⟩

/-- creatReadHandle carries `O_CREATE|O_RDONLY`, the flag word `Create`
combinations produce for a read-only open. -/
def creatReadHandle : Handle := ⟨"f", ['a', 'b'], 0, oCREATE ||| oRDONLY, 438, 0, false⟩

/-- appendWriteHandle carries `O_WRONLY|O_APPEND` with its position at
the end of the buffer. -/
def appendWriteHandle : Handle := ⟨"f", ['a', 'b'], 2, oWRONLY ||| oAPPEND, 438, 0, false⟩

/-- midHandle is an open read-write handle parked one byte before the
end, so a large read drains the buffer and sees end-of-data. -/
def midHandle : Handle := ⟨"f", ['a', 'b'], 1, oRDWR, 438, 0, false⟩

/-- bigNlinkStat is a native stat whose link count does not fit in 32
bits. -/
def bigNlinkStat : StatT := ⟨2 ^ 32, 0, 0, 0, 0, 0, 0, 0, 0⟩

/-! ## Helper lemmas -/

theorem truncBytes_eq (b : Bytes) (size : Nat) :
    truncBytes b size = b.take size ++ List.replicate (size - b.length) zeroByte := by
  unfold truncBytes
  by_cases h : size < b.length
  · simp [h, Nat.sub_eq_zero_of_le (le_of_lt h)]
  · push_neg at h
    rw [if_neg (by omega), List.take_of_length_le h]
    by_cases h2 : 0 < size - b.length
    · rw [if_pos h2]
    · rw [if_neg h2]
      have : size - b.length = 0 := by omega
      simp [this]

theorem length_truncBytes (b : Bytes) (size : Nat) : (truncBytes b size).length = size := by
  rw [truncBytes_eq]
  simp only [List.length_append, List.length_take, List.length_replicate]
  omega

theorem nameLe_total : ∀ a b : List Char, nameLe a b = true ∨ nameLe b a = true
  | [], _ => Or.inl rfl
  | _ :: _, [] => Or.inr rfl
  | a :: as, b :: bs => by
    by_cases h1 : a.toNat < b.toNat
    · left; simp [nameLe, h1]
    · by_cases h2 : b.toNat < a.toNat
      · right; simp [nameLe, h2]
      · rcases nameLe_total as bs with h | h
        · left; simp [nameLe, h1, h2, h]
        · right; simp [nameLe, h1, h2, h]

theorem nameLe_trans : ∀ a b c : List Char,
    nameLe a b = true → nameLe b c = true → nameLe a c = true
  | [], _, _, _, _ => rfl
  | _ :: _, [], _, hab, _ => by simp [nameLe] at hab
  | _ :: _, _ :: _, [], _, hbc => by simp [nameLe] at hbc
  | a :: as, b :: bs, c :: cs, hab, hbc => by
    simp only [nameLe] at hab hbc ⊢
    rcases Nat.lt_trichotomy a.toNat b.toNat with h1 | h1 | h1 <;>
      rcases Nat.lt_trichotomy b.toNat c.toNat with h2 | h2 | h2
    · rw [if_pos (by omega)]
    · rw [if_pos (by omega)]
    · rw [if_neg (by omega), if_pos (by omega)] at hbc; simp at hbc
    · rw [if_pos (by omega)]
    · rw [if_neg (by omega), if_neg (by omega)] at hab hbc ⊢
      exact nameLe_trans as bs cs hab hbc
    · rw [if_neg (by omega), if_pos (by omega)] at hbc; simp at hbc
    · rw [if_neg (by omega), if_pos (by omega)] at hab; simp at hab
    · rw [if_neg (by omega), if_pos (by omega)] at hab; simp at hab
    · rw [if_neg (by omega), if_pos (by omega)] at hab; simp at hab

theorem mem_insertByName (z x : FileInfo) : ∀ l : List FileInfo,
    z ∈ insertByName x l → z = x ∨ z ∈ l
  | [] => by simp [insertByName]
  | y :: ys => by
    simp only [insertByName]
    by_cases hc : nameLe x.name.data y.name.data = true
    · rw [if_pos hc]
      intro h
      simpa [List.mem_cons] using h
    · rw [if_neg hc]
      intro h
      rcases List.mem_cons.mp h with h | h
      · exact Or.inr (List.mem_cons.mpr (Or.inl h))
      · rcases mem_insertByName z x ys h with h' | h'
        · exact Or.inl h'
        · exact Or.inr (List.mem_cons.mpr (Or.inr h'))

theorem pairwise_insertByName (x : FileInfo) : ∀ l : List FileInfo,
    List.Pairwise (fun a b => nameLe a.name.data b.name.data = true) l →
    List.Pairwise (fun a b => nameLe a.name.data b.name.data = true) (insertByName x l)
  | [], _ => by simp [insertByName]
  | y :: ys, h => by
    rcases List.pairwise_cons.mp h with ⟨hy, hys⟩
    simp only [insertByName]
    by_cases hc : nameLe x.name.data y.name.data = true
    · rw [if_pos hc]
      refine List.Pairwise.cons ?_ h
      intro z hz
      rcases List.mem_cons.mp hz with rfl | hz
      · exact hc
      · exact nameLe_trans _ _ _ hc (hy z hz)
    · rw [if_neg hc]
      have hyx : nameLe y.name.data x.name.data = true := by
        rcases nameLe_total x.name.data y.name.data with h' | h'
        · exact absurd h' hc
        · exact h'
      refine List.Pairwise.cons ?_ (pairwise_insertByName x ys hys)
      intro z hz
      rcases mem_insertByName z x ys hz with rfl | hz
      · exact hyx
      · exact hy z hz

theorem sorted_sortByName : ∀ l : List FileInfo,
    List.Pairwise (fun a b => nameLe a.name.data b.name.data = true) (sortByName l)
  | [] => List.Pairwise.nil
  | x :: xs => pairwise_insertByName x _ (sorted_sortByName xs)

theorem perm_insertByName (x : FileInfo) : ∀ l : List FileInfo,
    List.Perm (insertByName x l) (x :: l)
  | [] => List.Perm.refl _
  | y :: ys => by
    simp only [insertByName]
    by_cases hc : nameLe x.name.data y.name.data = true
    · rw [if_pos hc]
    · rw [if_neg hc]
      exact (List.Perm.cons y (perm_insertByName x ys)).trans (List.Perm.swap x y ys)

theorem perm_sortByName : ∀ l : List FileInfo, List.Perm (sortByName l) l
  | [] => List.Perm.refl _
  | x :: xs =>
    (perm_insertByName x (sortByName xs)).trans (List.Perm.cons x (perm_sortByName xs))

theorem find?_addParents (pr : String × Entry → Bool) :
    ∀ (fuel : Nat) (m : Memory) (path : String) (perm now : Nat),
      (m.find? pr).isSome = true →
      (addParents fuel m path perm now).find? pr = m.find? pr
  | 0, _, _, _, _, _ => rfl
  | fuel + 1, m, path, perm, now, h => by
    unfold addParents
    by_cases hd : dirPath path = path
    · rw [if_pos hd]
    · rw [if_neg hd]
      cases hs : sget m (dirPath path) with
      | some _ => rfl
      | none =>
        have happ :
            (m ++ [(clean (dirPath path), mkDirEntry (dirPath path) perm now)]).find? pr
              = m.find? pr := by
          rw [List.find?_append]
          exact Option.or_of_isSome h
        rw [find?_addParents pr fuel _ _ _ _ (by rw [happ]; exact h), happ]

theorem sget_storeEntry (m : Memory) (path : String) (e : Entry) (perm now : Nat) :
    sget (storeEntry m path e perm now) path = some e := by
  unfold sget storeEntry
  have hhead : ((clean path, e) :: m.filter (fun kv => !(kv.1 == clean path))).find?
      (fun kv => kv.1 == clean path) = some (clean path, e) :=
    List.find?_cons_of_pos _ (by simp)
  rw [find?_addParents _ _ _ _ _ _ (by rw [hhead]; rfl), hhead]
  rfl

theorem resolveLink_snd_true {p : String} {f : Entry} (h : isSymlink f.mode = true) :
    (resolveLink p f).2 = true := by
  simp [resolveLink, h]

theorem resolveLink_snd_false {p : String} {f : Entry} (h : isSymlink f.mode = false) :
    (resolveLink p f).2 = false := by
  simp [resolveLink, h]

theorem resolveLink_fst_of_not_link {p : String} {f : Entry} (h : isSymlink f.mode = false) :
    (resolveLink p f).1 = p := by
  simp [resolveLink, h]

theorem openFile_isDir_of_resolvesTo {m : Memory} {p : String} {g : Entry} {n : Nat}
    {flag : Nat} (perm now : Nat) (h : ResolvesTo m p g n) (hx : isExclusive flag = false) :
    ∀ fuel, n < fuel → isDirMode g.mode = true →
      ∃ q, OpenFile fuel m p flag perm now = .error (.isDirectory q) := by
  induction h with
  | @direct p f hget hlink =>
    intro fuel hfuel hd
    obtain ⟨fuel, rfl⟩ : ∃ k, fuel = k + 1 := ⟨fuel - 1, by omega⟩
    refine ⟨p, ?_⟩
    simp [OpenFile, hget, hx, resolveLink_snd_false hlink, hd]
  | @step p f g n hget hlink _ ih =>
    intro fuel hfuel hd
    obtain ⟨fuel, rfl⟩ : ∃ k, fuel = k + 1 := ⟨fuel - 1, by omega⟩
    obtain ⟨q, hq⟩ := ih fuel (by omega) hd
    refine ⟨q, ?_⟩
    simpa [OpenFile, hget, hx, resolveLink_snd_true hlink] using hq

/-! ## Claim C1 -/

/-- C1 (amended): the first Close on an open Handle succeeds and marks it
closed; a second Close fails with the already-closed error; and Read,
ReadAt, Write, WriteAt and Seek on a closed Handle fail with that same
error.  Truncate, however, performs no closed-handle check in the
source, so it succeeds even on a closed Handle. -/
theorem close_is_one_shot (f : Handle) (k sz now : Nat) (off : Int) (p : Bytes) (w : Whence) :
    (f.isClosed = false → f.Close.2 = none ∧ f.Close.1.isClosed = true)
    ∧ (f.isClosed = true →
        f.Close.2 = some .closed
        ∧ (f.Read k).2.2 = some .closed
        ∧ (f.ReadAt k off).2 = some .closed
        ∧ (f.Write p now).2.2 = some .closed
        ∧ (f.WriteAt p off now).2.2 = some .closed
        ∧ (f.Seek off w).2.2 = some .closed
        ∧ (f.Truncate sz now).2 = none) := by
  constructor
  · intro h
    simp [Handle.Close, h]
  · intro h
    refine ⟨?_, ?_, ?_, ?_, ?_, ?_, ?_⟩ <;>
      simp [Handle.Close, Handle.Read, Handle.ReadAt, Handle.Write, Handle.WriteAt,
        Handle.Seek, Handle.Truncate, h]

/-- C1 witness: the amended behaviour at concrete handles. -/
theorem close_is_one_shot_witness :
    (openRW.Close.2 = none ∧ openRW.Close.1.isClosed = true)
    ∧ (closedRW.Close.2 = some .closed
       ∧ (closedRW.Read 1).2.2 = some .closed
       ∧ (closedRW.ReadAt 1 0).2 = some .closed
       ∧ (closedRW.Write ['x'] 7).2.2 = some .closed
       ∧ (closedRW.WriteAt ['x'] 0 7).2.2 = some .closed
       ∧ (closedRW.Seek 0 .seekStart).2.2 = some .closed
       ∧ (closedRW.Truncate 1 7).2 = none) :=
  ⟨(close_is_one_shot openRW 1 1 7 0 ['x'] .seekStart).1 rfl,
   (close_is_one_shot closedRW 1 1 7 0 ['x'] .seekStart).2 rfl⟩

/-- C1 counterexample: Truncate on a closed Handle does not fail with the
already-closed error — it succeeds — contradicting the claim that every
listed I/O operation, Truncate included, fails with that error after
Close. -/
theorem close_is_one_shot_counterexample :
    closedRW.isClosed = true ∧ (closedRW.Truncate 1 7).2 ≠ some GoErr.closed := by decide

/-! ## Claim C2 -/

/-- C2 (amended): on an open Handle the flag word gates I/O as follows:
the exact word `O_RDONLY` (no other bit set) delegates reads to the
buffer and rejects writes; any flag word without the `O_RDWR` bit other
than exact `O_RDONLY` rejects reads — so `O_RDONLY` combined with
`O_CREATE`, `O_APPEND`, `O_TRUNC` or `O_EXCL` rejects reads, because the
read-only test is an equality on the whole word; a word with the
`O_WRONLY` bit and without the `O_RDWR` bit delegates writes and rejects
reads regardless of other bits; and a word with the `O_RDWR` bit
delegates both regardless of other bits. -/
theorem flag_word_gates_io (f : Handle) (k : Nat) (off : Int) (p : Bytes) (now : Nat)
    (hopen : f.isClosed = false) :
    (f.flag = oRDONLY →
      f.ReadAt k off = contentReadAt f.content k off
      ∧ f.WriteAt p off now = (f, 0, some .writeNotSupported))
    ∧ (isReadAndWrite f.flag = false → f.flag ≠ oRDONLY →
      f.ReadAt k off = ([], some .readNotSupported))
    ∧ (isReadAndWrite f.flag = false → isWriteOnly f.flag = true →
      f.WriteAt p off now =
        ({ f with content := (contentWriteAt f.content p off).1,
                  position := off + ((contentWriteAt f.content p off).2.1 : Int),
                  mtime := now },
         (contentWriteAt f.content p off).2.1, (contentWriteAt f.content p off).2.2))
    ∧ (isReadAndWrite f.flag = true →
      f.ReadAt k off = contentReadAt f.content k off
      ∧ f.WriteAt p off now =
        ({ f with content := (contentWriteAt f.content p off).1,
                  position := off + ((contentWriteAt f.content p off).2.1 : Int),
                  mtime := now },
         (contentWriteAt f.content p off).2.1, (contentWriteAt f.content p off).2.2)) := by
  refine ⟨?_, ?_, ?_, ?_⟩
  · intro hf
    have h1 : (isReadAndWrite f.flag || isReadOnly f.flag) = true := by rw [hf]; decide
    have h2 : (isReadAndWrite f.flag || isWriteOnly f.flag) = false := by rw [hf]; decide
    constructor
    · simp [Handle.ReadAt, hopen, h1]
    · simp [Handle.WriteAt, hopen, h2]
  · intro hrw hne
    have h3 : isReadOnly f.flag = false := by
      simp [isReadOnly, oRDONLY]
      simpa [oRDONLY] using hne
    simp [Handle.ReadAt, hopen, hrw, h3]
  · intro hrw hw
    simp [Handle.WriteAt, hopen, hrw, hw]
  · intro hrw
    constructor
    · simp [Handle.ReadAt, hopen, hrw]
    · simp [Handle.WriteAt, hopen, hrw]

/-- C2 witness: the amended behaviour at concrete handles — the bare
read-only handle delegates reads and rejects writes; the
`O_CREATE|O_RDONLY` handle has reads rejected. -/
theorem flag_word_gates_io_witness :
    (readOnlyHandle.ReadAt 2 0 = contentReadAt readOnlyHandle.content 2 0
     ∧ readOnlyHandle.WriteAt ['x'] 0 7 = (readOnlyHandle, 0, some .writeNotSupported))
    ∧ creatReadHandle.ReadAt 1 0 = ([], some .readNotSupported) :=
  ⟨(flag_word_gates_io readOnlyHandle 2 0 ['x'] 7 rfl).1 rfl,
   (flag_word_gates_io creatReadHandle 1 0 ['x'] 7 rfl).2.1 (by decide) (by decide)⟩

/-- C2 counterexample: a Handle opened with `O_RDONLY` combined with
`O_CREATE` rejects ReadAt with the unsupported-operation error, although
the claim promises that an `O_RDONLY` handle permits reads regardless of
which other flags were combined with the access mode. -/
theorem flag_word_gates_io_counterexample :
    creatReadHandle.isClosed = false
    ∧ creatReadHandle.flag = (oCREATE ||| oRDONLY)
    ∧ (creatReadHandle.ReadAt 1 0).2 = some GoErr.readNotSupported := by decide

/-! ## Claim C7 -/

/-- C7: Truncate to `n` keeps exactly the first `n` bytes of the buffer
(zero-padding when it was shorter), and a following Truncate to a larger
`m` grows it back to length `m` with every byte at an index in `[n, m)`
zero, whatever content the buffer held before. -/
theorem truncate_shrink_then_grow_zero_pads (f : Handle) (n m now1 now2 : Nat) (h : n < m) :
    (f.Truncate n now1).1.content
        = f.content.take n ++ List.replicate (n - f.content.length) zeroByte
    ∧ (((f.Truncate n now1).1.Truncate m now2).1.content.length = m)
    ∧ ∀ i, n ≤ i → i < m →
        ((f.Truncate n now1).1.Truncate m now2).1.content[i]? = some zeroByte := by
  refine ⟨?_, ?_, ?_⟩
  · simpa [Handle.Truncate] using truncBytes_eq f.content n
  · simp [Handle.Truncate, length_truncBytes]
  · intro i hn hm
    have hl1 : (truncBytes f.content n).length = n := length_truncBytes f.content n
    have hc : ((f.Truncate n now1).1.Truncate m now2).1.content
        = truncBytes (truncBytes f.content n) m := by simp [Handle.Truncate]
    rw [hc, truncBytes_eq]
    rw [List.getElem?_append_right (by simp [List.length_take, hl1]; omega)]
    rw [List.getElem?_replicate, if_pos (by simp [List.length_take, hl1]; omega)]

/-- C7 witness: truncating a two-byte buffer to 1 then to 3 leaves
length 3 with zero bytes at indices 1 and 2. -/
theorem truncate_shrink_then_grow_zero_pads_witness :
    (openRW.Truncate 1 5).1.content
        = openRW.content.take 1 ++ List.replicate (1 - openRW.content.length) zeroByte
    ∧ (((openRW.Truncate 1 5).1.Truncate 3 6).1.content.length = 3)
    ∧ ((openRW.Truncate 1 5).1.Truncate 3 6).1.content[2]? = some zeroByte :=
  ⟨(truncate_shrink_then_grow_zero_pads openRW 1 3 5 6 (by decide)).1,
   (truncate_shrink_then_grow_zero_pads openRW 1 3 5 6 (by decide)).2.1,
   (truncate_shrink_then_grow_zero_pads openRW 1 3 5 6 (by decide)).2.2 2
     (by decide) (by decide)⟩

/-! ## Claim C8 -/

/-- C8: Read delegates to ReadAt at the current position, advances the
position by exactly the number of bytes returned, converts an
end-of-data signal accompanied by at least one byte into a nil error,
and hence reports end-of-data only on a call that produced zero bytes. -/
theorem read_advances_and_defers_eof (f : Handle) (k : Nat) :
    (f.Read k).2.1 = (f.ReadAt k f.position).1
    ∧ (f.Read k).1.position = f.position + ((f.ReadAt k f.position).1.length : Int)
    ∧ ((f.ReadAt k f.position).2 = some .eof → (f.ReadAt k f.position).1.length ≠ 0 →
        (f.Read k).2.2 = none)
    ∧ ((f.Read k).2.2 = some .eof → (f.Read k).2.1.length = 0) := by
  refine ⟨rfl, rfl, ?_, ?_⟩
  · intro he hn
    simp [Handle.Read, he, hn]
  · intro he
    by_cases hc : (f.ReadAt k f.position).2 = some .eof ∧ (f.ReadAt k f.position).1.length ≠ 0
    · exfalso
      rw [show (f.Read k).2.2 = none from by simp [Handle.Read, hc.1, hc.2]] at he
      exact Option.noConfusion he
    · have h1 : (f.Read k).2.2 = (f.ReadAt k f.position).2 := by
        simp only [Handle.Read]
        rw [if_neg hc]
      rw [h1] at he
      have hz : (f.ReadAt k f.position).1.length = 0 :=
        not_not.mp (fun hn => hc ⟨he, hn⟩)

      show (f.ReadAt k f.position).1.length = 0
      exact hz

/-- C8 witness: a handle one byte before the end of a two-byte buffer;
a five-byte Read drains the last byte with the end-of-data signal from
the buffer converted to a nil error, and the position advances by 1. -/
theorem read_advances_and_defers_eof_witness :
    (midHandle.ReadAt 5 midHandle.position).2 = some GoErr.eof
    ∧ (midHandle.ReadAt 5 midHandle.position).1.length ≠ 0
    ∧ (midHandle.Read 5).2.2 = none
    ∧ (midHandle.Read 5).1.position = midHandle.position + 1 :=
  ⟨by decide, by decide,
   (read_advances_and_defers_eof midHandle 5).2.2.1 (by decide) (by decide),
   by decide⟩

/-! ## Claim C9 -/

/-- C9 (amended): the enricher is a pure decode with no failure path
beyond the absent case: absent native stat data yields the absent
result, and with native data present every field of the result equals
the corresponding native field — uid, gid, inode, major/minor decoded
from the raw device number, and nanosecond-precision access/change
instants — except that the link count is the native link count reduced
modulo 2^32 by the code's narrowing conversion. -/
theorem enricher_decodes_native_stat (sys : Option StatT) :
    (sys = none → getOSFileInfo sys = none)
    ∧ ∀ s, sys = some s →
        ∃ fi, getOSFileInfo sys = some fi
          ∧ fi.nlink = s.nlink % 2 ^ 32
          ∧ fi.uid = s.uid
          ∧ fi.gid = s.gid
          ∧ fi.major = unixMajor s.rdev
          ∧ fi.minor = unixMinor s.rdev
          ∧ fi.fileid = s.ino
          ∧ fi.atimeNanos = s.atimSec * 1000000000 + s.atimNsec
          ∧ fi.ctimeNanos = s.ctimSec * 1000000000 + s.ctimNsec := by
  constructor
  · intro h
    rw [h]
    rfl
  · intro s h
    subst h
    exact ⟨_, rfl, rfl, rfl, rfl, rfl, rfl, rfl, rfl, rfl⟩

/-- C9 witness: the decode at the absent input and at a concrete native
stat. -/
theorem enricher_decodes_native_stat_witness :
    getOSFileInfo (none : Option StatT) = none
    ∧ ∃ fi, getOSFileInfo (some bigNlinkStat) = some fi
        ∧ fi.nlink = bigNlinkStat.nlink % 2 ^ 32
        ∧ fi.uid = bigNlinkStat.uid
        ∧ fi.gid = bigNlinkStat.gid
        ∧ fi.major = unixMajor bigNlinkStat.rdev
        ∧ fi.minor = unixMinor bigNlinkStat.rdev
        ∧ fi.fileid = bigNlinkStat.ino
        ∧ fi.atimeNanos = bigNlinkStat.atimSec * 1000000000 + bigNlinkStat.atimNsec
        ∧ fi.ctimeNanos = bigNlinkStat.ctimSec * 1000000000 + bigNlinkStat.ctimNsec :=
  ⟨(enricher_decodes_native_stat none).1 rfl,
   (enricher_decodes_native_stat (some bigNlinkStat)).2 bigNlinkStat rfl⟩

/-- C9 counterexample: at a native link count of 2^32 the returned link
count is 0, not the native value — the claim's unqualified field
equality fails on the narrowed link count. -/
theorem enricher_decodes_native_stat_counterexample :
    (getOSFileInfo (some bigNlinkStat)).map (fun fi => fi.nlink) = some 0
    ∧ bigNlinkStat.nlink ≠ 0 := by decide

/-! ## Claim C10 -/

/-- C10: a successful WriteAt returns the full byte count, sets the seek
position to the offset plus the bytes written, and stamps the mtime with
the write time; and because Write reuses the handle position, an
`O_APPEND` Handle that has been Seek'd to an arbitrary position writes
there — not at the end of the buffer. -/
theorem writeAt_moves_position_and_mtime (f : Handle) (p : Bytes) (off : Int) (now : Nat)
    (k : Int) (hopen : f.isClosed = false)
    (hw : isReadAndWrite f.flag = true ∨ isWriteOnly f.flag = true)
    (hoff : 0 ≤ off) :
    ((f.WriteAt p off now).2.2 = none
     ∧ (f.WriteAt p off now).2.1 = p.length
     ∧ (f.WriteAt p off now).1.position = off + (p.length : Int)
     ∧ (f.WriteAt p off now).1.mtime = now)
    ∧ (isAppend f.flag = true →
        (f.Seek k .seekStart).1.Write p now = (f.Seek k .seekStart).1.WriteAt p k now) := by
  constructor
  · have hgate : (isReadAndWrite f.flag || isWriteOnly f.flag) = true := by
      rcases hw with h | h <;> simp [h]
    have hnn : ¬ off < 0 := not_lt.mpr hoff
    refine ⟨?_, ?_, ?_, ?_⟩ <;>
      simp [Handle.WriteAt, hopen, hgate, contentWriteAt, hnn]
  · intro _
    have hpos : (f.Seek k .seekStart).1.position = k := by
      simp [Handle.Seek, hopen]
    show (f.Seek k .seekStart).1.WriteAt p (f.Seek k .seekStart).1.position now
        = (f.Seek k .seekStart).1.WriteAt p k now
    rw [hpos]

/-- C10 witness: the append-mode write-only handle, Seek'd from the end
of its two-byte buffer back to offset 0, writes at offset 0; and a
direct positioned write at offset 0 lands the position at the byte
count. -/
theorem writeAt_moves_position_and_mtime_witness :
    (((appendWriteHandle.WriteAt ['x'] 0 9).2.2 = none
      ∧ (appendWriteHandle.WriteAt ['x'] 0 9).2.1 = 1
      ∧ (appendWriteHandle.WriteAt ['x'] 0 9).1.position = 0 + (1 : Int)
      ∧ (appendWriteHandle.WriteAt ['x'] 0 9).1.mtime = 9)
     ∧ (appendWriteHandle.Seek 0 .seekStart).1.Write ['x'] 9
         = (appendWriteHandle.Seek 0 .seekStart).1.WriteAt ['x'] 0 9) :=
  ⟨(writeAt_moves_position_and_mtime appendWriteHandle ['x'] 0 9 0 rfl
      (Or.inr (by decide)) (by decide)).1,
   (writeAt_moves_position_and_mtime appendWriteHandle ['x'] 0 9 0 rfl
      (Or.inr (by decide)) (by decide)).2 (by decide)⟩

/-! ## Claim C3 -/

/-- C3: OpenFile fails with the not-exist error on an absent path when
the flags lack `O_CREATE`; with the already-exists error on a present
path when the flags include `O_EXCL`; and with the is-a-directory error
when the Entry the path resolves to (after any chain of symlink hops) is
a directory.  Every failure is an `.error` result of the `Except`, so no
Handle is returned. -/
theorem openFile_failure_cases (fuel : Nat) (m : Memory) (path : String) (flag perm now : Nat) :
    (sget m path = none → isCreate flag = false →
      OpenFile (fuel + 1) m path flag perm now = .error .notExist)
    ∧ (∀ f, sget m path = some f → isExclusive flag = true →
      OpenFile (fuel + 1) m path flag perm now = .error .exist)
    ∧ (∀ g n, ResolvesTo m path g n → isExclusive flag = false → isDirMode g.mode = true →
      n < fuel + 1 →
      ∃ q, OpenFile (fuel + 1) m path flag perm now = .error (.isDirectory q)) := by
  refine ⟨?_, ?_, ?_⟩
  · intro hget hcr
    simp [OpenFile, hget, hcr]
  · intro f hget hx
    simp [OpenFile, hget, hx]
  · intro g n hres hx hd hfuel
    exact openFile_isDir_of_resolvesTo perm now hres hx (fuel + 1) hfuel hd

/-- C3 witness: the three failure cases at the sample store — an absent
path without `O_CREATE`, an existing file with `O_EXCL`, and a directory
path. -/
theorem openFile_failure_cases_witness :
    OpenFile 1 sampleMemory "/nope" oRDONLY 438 9 = .error .notExist
    ∧ OpenFile 1 sampleMemory "/a/b/f.txt" oEXCL 438 9 = .error .exist
    ∧ ∃ q, OpenFile 1 sampleMemory "/a" oRDONLY 438 9 = .error (.isDirectory q) :=
  ⟨(openFile_failure_cases 0 sampleMemory "/nope" oRDONLY 438 9).1 (by decide) (by decide),
   (openFile_failure_cases 0 sampleMemory "/a/b/f.txt" oEXCL 438 9).2.1 sampleEntry
     (by decide) (by decide),
   (openFile_failure_cases 0 sampleMemory "/a" oRDONLY 438 9).2.2
     ⟨"a", [], 493 ||| ModeDir, 1⟩ 0 (.direct (by decide) (by decide))
     (by decide) (by decide) (by decide)⟩

/-! ## Claim C4 -/

/-- C4: when a path's Entry exists and its symlink chain resolves to a
non-symlink Entry, Stat succeeds, the returned name is the base name of
the originally queried path, and size, mode and mtime are those of the
Entry the chain resolves to. -/
theorem stat_rewrites_name_to_queried_base {m : Memory} {p : String} {g : Entry} {n : Nat}
    (fuel : Nat) (h : ResolvesTo m p g n) (hfuel : n < fuel) :
    Stat fuel m p = .ok ⟨basePath p, g.content.length, g.mode, g.mtime⟩ := by
  induction h generalizing fuel with
  | @direct p f hget hlink =>
    obtain ⟨fuel, rfl⟩ : ∃ k, fuel = k + 1 := ⟨fuel - 1, by omega⟩
    simp [Stat, hget, resolveLink_snd_false hlink, entryStat]
  | @step p f g n hget hlink _ ih =>
    obtain ⟨fuel, rfl⟩ : ∃ k, fuel = k + 1 := ⟨fuel - 1, by omega⟩
    have hrec := ih fuel (by omega)
    simp [Stat, hget, resolveLink_snd_true hlink, hrec]

/-- C4 witness: the spec's scenario — a symlink `/link` to the five-byte
file `/a/b/f.txt`; Stat of `/link` reports size 5 and name `link` while
mode and mtime come from the target file. -/
theorem stat_rewrites_name_to_queried_base_witness :
    Stat 2 sampleMemory "/link" = .ok ⟨"link", 5, 438, 2⟩ := by
  have h0 : ResolvesTo sampleMemory "/a/b/f.txt" sampleEntry 0 :=
    .direct (by decide) (by decide)
  have h1 : ResolvesTo sampleMemory "/link" sampleEntry 1 :=
    @ResolvesTo.step sampleMemory "/link"
      ⟨"link", "/a/b/f.txt".data, 511 ||| ModeSymlink, 3⟩ sampleEntry 0
      (by decide) (by decide)
      (by rw [show (resolveLink "/link"
            (⟨"link", "/a/b/f.txt".data, 511 ||| ModeSymlink, 3⟩ : Entry)).1
            = "/a/b/f.txt" from by decide]
          exact h0)
  rw [stat_rewrites_name_to_queried_base 2 h1 (by decide)]
  decide

/-! ## Claim C5 -/

/-- C5: when Stat at the link path currently fails with the not-exist
error, Symlink writes the symlink Entry and a subsequent Readlink
returns exactly the original target string; when Stat at the link path
currently succeeds, Symlink fails with the already-exists error and
produces no new store. -/
theorem symlink_readlink_round_trip (fuel : Nat) (m : Memory) (target link : String)
    (now : Nat) :
    (Stat fuel m link = .error .notExist →
      Symlink fuel m target link now = .ok (writeSymlinkFile m link target now)
      ∧ Readlink (writeSymlinkFile m link target now) link = .ok target)
    ∧ (∀ fi, Stat fuel m link = .ok fi → Symlink fuel m target link now = .error .exist) := by
  constructor
  · intro hstat
    constructor
    · simp [Symlink, hstat]
    · unfold Readlink writeSymlinkFile
      rw [sget_storeEntry]
      have hsym : isSymlink (511 ||| ModeSymlink) = true := by decide
      simp [hsym]
  · intro fi hstat
    simp [Symlink, hstat]

/-- C5 witness: on the empty store the round trip through `/lnk`
reproduces the target `/a/t` byte for byte; on the sample store a
Symlink onto the existing `/a/b/f.txt` fails with already-exists. -/
theorem symlink_readlink_round_trip_witness :
    (Symlink 1 ([] : Memory) "/a/t" "/lnk" 5 = .ok (writeSymlinkFile [] "/lnk" "/a/t" 5)
     ∧ Readlink (writeSymlinkFile [] "/lnk" "/a/t" 5) "/lnk" = .ok "/a/t")
    ∧ Symlink 2 sampleMemory "anything" "/a/b/f.txt" 5 = .error .exist :=
  ⟨(symlink_readlink_round_trip 1 [] "/a/t" "/lnk" 5).1 (by decide),
   (symlink_readlink_round_trip 2 sampleMemory "anything" "/a/b/f.txt" 5).2
     ⟨"f.txt", 5, 438, 2⟩ (by decide)⟩

/-! ## Claim C6 -/

/-- C6: ReadDir fails with the not-exist path error on an absent path;
when the path's Entry is a symlink it recurses on the resolved target;
otherwise it returns the path's direct children sorted in ascending name
order (a permutation of the children's stats, pairwise ordered by name);
and a childless non-symlink Entry — in particular a regular file —
yields the empty listing rather than an error. -/
theorem readdir_sorted_children (fuel : Nat) (m : Memory) (path : String) :
    (sget m path = none → ReadDir (fuel + 1) m path = .error (.pathENOENT "open" path))
    ∧ (∀ f, sget m path = some f → isSymlink f.mode = true →
        ReadDir (fuel + 1) m path = ReadDir fuel m (resolveLink path f).1)
    ∧ (∀ f, sget m path = some f → isSymlink f.mode = false →
        ReadDir (fuel + 1) m path = .ok (sortByName ((Children m path).map entryStat))
        ∧ List.Pairwise (fun a b => nameLe a.name.data b.name.data = true)
            (sortByName ((Children m path).map entryStat))
        ∧ List.Perm (sortByName ((Children m path).map entryStat))
            ((Children m path).map entryStat))
    ∧ (∀ f, sget m path = some f → isSymlink f.mode = false → Children m path = [] →
        ReadDir (fuel + 1) m path = .ok []) := by
  refine ⟨?_, ?_, ?_, ?_⟩
  · intro hget
    simp [ReadDir, hget]
  · intro f hget hl
    simp [ReadDir, hget, resolveLink_snd_true hl]
  · intro f hget hl
    exact ⟨by simp [ReadDir, hget, resolveLink_snd_false hl],
      sorted_sortByName _, perm_sortByName _⟩
  · intro f hget hl hch
    simp [ReadDir, hget, resolveLink_snd_false hl, hch, sortByName]

/-- C6 witness: the sample store — an absent path errors, the symlink
recurses, `/a/b` lists its one child, and the regular file `/a/b/f.txt`
yields an empty listing with no error. -/
theorem readdir_sorted_children_witness :
    ReadDir 1 sampleMemory "/nope" = .error (.pathENOENT "open" "/nope")
    ∧ ReadDir 2 sampleMemory "/link" = ReadDir 1 sampleMemory
        (resolveLink "/link" ⟨"link", "/a/b/f.txt".data, 511 ||| ModeSymlink, 3⟩).1
    ∧ ReadDir 1 sampleMemory "/a/b"
        = .ok (sortByName ((Children sampleMemory "/a/b").map entryStat))
    ∧ ReadDir 1 sampleMemory "/a/b/f.txt" = .ok [] :=
  ⟨(readdir_sorted_children 0 sampleMemory "/nope").1 (by decide),
   (readdir_sorted_children 1 sampleMemory "/link").2.1
     ⟨"link", "/a/b/f.txt".data, 511 ||| ModeSymlink, 3⟩ (by decide) (by decide),
   ((readdir_sorted_children 0 sampleMemory "/a/b").2.2.1
     ⟨"b", [], 493 ||| ModeDir, 1⟩ (by decide) (by decide)).1,
   (readdir_sorted_children 0 sampleMemory "/a/b/f.txt").2.2.2 sampleEntry
     (by decide) (by decide) (by decide)⟩

end Memfs
